import Mathlib

/-!
Shallow embedding of `cleaner.py` (Dataset-Cleaner): issue detection,
per-column cleaning transforms and the CSV loader.

Modelling conventions:
* A numeric cell is `Option ℚ`: `none` stands for a pandas `NaN` (missing
  value), `some x` for the finite number `x`.  A categorical/text cell is
  `Option String`.
* A table, for the claims that remove whole rows, is a `List (cell × β)`:
  the first component is the target column's cell, `β` carries the rest of
  the row, so "removing a row" is literal.
* pandas `Series.quantile(q)` (default linear interpolation over the
  non-NaN values) is `quantile`; comparisons against `NaN` are `False` in
  pandas, which the `Option` matches encode.
-/

/-- The non-missing values of a column, in order (pandas drops NaN before
computing statistics such as quantiles, mean, mode). -/
def nonMissing (col : List (Option ℚ)) : List ℚ :=
  col.filterMap id

/-- The column's non-missing values in ascending order, as pandas sorts
them before interpolating a quantile. -/
def sortedVals (col : List (Option ℚ)) : List ℚ :=
  List.insertionSort (· ≤ ·) (nonMissing col)

/-- Linear interpolation into a sorted list at real position `h`:
`s[⌊h⌋] + (h − ⌊h⌋) * (s[⌊h⌋+1] − s[⌊h⌋])`, reading past the end as the
last fetched value (only relevant at `h = length − 1`).  This is the
`interpolation='linear'` rule of `Series.quantile`. -/
def interpAt (s : List ℚ) (h : ℚ) : ℚ :=
  let i : Nat := (Int.toNat ⌊h⌋)
  let lo := s.getD i 0
  let hi := s.getD (i + 1) lo
  lo + Int.fract h * (hi - lo)

/-- Model of `df[column].quantile(q)` (cleaner.py lines 25–26, 68–69,
73–74): `none` when the column has no non-missing value (pandas returns
NaN), otherwise linear interpolation at position `q * (n − 1)` in the
sorted non-missing values. -/
def quantile (col : List (Option ℚ)) (q : ℚ) : Option ℚ :=
  let s := sortedVals col
  if s.isEmpty then none
  else some (interpAt s (q * ((s.length : ℚ) - 1)))

/-- Model of the IQR bound computation `q1 = quantile(0.25)`,
`q3 = quantile(0.75)`, `iqr = q3 − q1`, bounds
`[q1 − 1.5*iqr, q3 + 1.5*iqr]` shared by `detect_issues` (lines 25–29)
and the outlier handlers in `clean_column` (lines 68–76).  `none` when
the quantiles are NaN (no non-missing value). -/
def iqrBounds (col : List (Option ℚ)) : Option (ℚ × ℚ) :=
  match quantile col (1/4), quantile col (3/4) with
  | some q1, some q3 =>
      let iqr := q3 - q1
      some (q1 - 3/2 * iqr, q3 + 3/2 * iqr)
  | _, _ => none

/-- Whether a cell is a detected outlier for bounds `(lb, ub)`:
`df[column] < lb` or `df[column] > ub` (line 30).  A `NaN` cell compares
`False` on both sides in pandas, hence `none ↦ false`. -/
def isOutlierCell (lb ub : ℚ) : Option ℚ → Bool
  | none => false
  | some v => decide (v < lb) || decide (v > ub)

/-- Model of the detector's outlier count (lines 24–32):
`df[(df[column] < lower_bound) | (df[column] > upper_bound)].shape[0]`.
When every value is NaN the bounds are NaN and no row satisfies either
comparison, so the count is 0. -/
def outlierCount (col : List (Option ℚ)) : Nat :=
  match iqrBounds col with
  | none => 0
  | some (lb, ub) => (col.filter (isOutlierCell lb ub)).length

/-- Evaluation helper: unfolds the quantile pipeline on concrete columns. -/
theorem iqrBounds_example :
    iqrBounds [some 1, some 2, some 3, some 4, some 100] = some (-1, 7) := by
  norm_num [iqrBounds, quantile, sortedVals, nonMissing, interpAt,
    List.insertionSort, List.orderedInsert, Int.fract,
    show Int.toNat 3 = 3 from rfl, show Int.toNat 1 = 1 from rfl]

/-- The number of missing (`NaN`) cells of a column:
`df[column].isna().sum()` (cleaner.py line 14). -/
def missingCount {α : Type} (col : List (Option α)) : Nat :=
  (col.filter (fun c => c.isNone)).length

/-- Running duplicate flags of `df.duplicated(subset=[column])` (line 19):
a row is flagged when its value in this one column equals the value of an
earlier row; pandas treats two `NaN` cells as equal here.  `seen` is the
set of key values already encountered. -/
def dupFlagsAux {α κ : Type} [DecidableEq κ] (key : α → κ) :
    List κ → List α → List Bool
  | _, [] => []
  | seen, r :: rs =>
    if key r ∈ seen then true :: dupFlagsAux key seen rs
    else false :: dupFlagsAux key (key r :: seen) rs

/-- Model of `df.duplicated(subset=[column])` (line 19). -/
def duplicated {α κ : Type} [DecidableEq κ] (key : α → κ) (df : List α) : List Bool :=
  dupFlagsAux key [] df

/-- Model of `df.duplicated(subset=[column]).sum()` (line 19). -/
def dupCount {α κ : Type} [DecidableEq κ] (key : α → κ) (df : List α) : Nat :=
  (duplicated key df).count true

/-- Row-keeping recursion of `df.drop_duplicates(subset=[column])`
(line 63): keep a row iff its key value has not occurred before. -/
def dropDupAux {α κ : Type} [DecidableEq κ] (key : α → κ) :
    List κ → List α → List α
  | _, [] => []
  | seen, r :: rs =>
    if key r ∈ seen then dropDupAux key seen rs
    else r :: dropDupAux key (key r :: seen) rs

/-- Model of `df.drop_duplicates(subset=[column], inplace=True)`
(lines 62–63): rows keyed by their value in the one target column, the
first occurrence of each key is kept, pandas treating `NaN` keys as equal
to each other. -/
def drop_duplicates {α κ : Type} [DecidableEq κ] (key : α → κ) (df : List α) : List α :=
  dropDupAux key [] df

/-- A table column as `detect_issues` sees it: the dtype category decides
which checks run (`pd.api.types.is_numeric_dtype`, line 24). -/
inductive ColData : Type where
  | num : List (Option ℚ) → ColData
  | cat : List (Option String) → ColData

/-- Missing-value count of a column (line 14). -/
def colMissing : ColData → Nat
  | ColData.num vals => missingCount vals
  | ColData.cat vals => missingCount vals

/-- Per-column duplicate count of a column (line 19). -/
def colDup : ColData → Nat
  | ColData.num vals => dupCount id vals
  | ColData.cat vals => dupCount id vals

/-- Outlier count of a column: the IQR check runs only on numeric columns
(lines 24–32), so a categorical column always reports 0. -/
def colOutliers : ColData → Nat
  | ColData.num vals => outlierCount vals
  | ColData.cat _ => 0

/-- The ordered issue strings collected for one column
(lines 11–32): missing values, then duplicates, then (numeric only)
outliers, each emitted only when its count is positive. -/
def columnIssues (c : ColData) : List String :=
  (if 0 < colMissing c then ["Missing values: " ++ toString (colMissing c)] else [])
    ++ (if 0 < colDup c then ["Duplicate values: " ++ toString (colDup c)] else [])
    ++ (if 0 < colOutliers c then ["Outliers detected: " ++ toString (colOutliers c)] else [])

/-- Model of `detect_issues(df)` (lines 7–37): a mapping from column name
to its issue strings, where a column whose issue list is empty is omitted
entirely (`if column_issues:` guard, lines 34–35). -/
def detect_issues (df : List (String × ColData)) : List (String × List String) :=
  (df.map (fun p => (p.1, columnIssues p.2))).filter (fun p => !p.2.isEmpty)

/-- Model of `df[column].mean()`: mean of the non-missing values, `none`
(NaN) when there is none. -/
def seriesMean (col : List (Option ℚ)) : Option ℚ :=
  let xs := nonMissing col
  if xs.isEmpty then none else some (xs.sum / (xs.length : ℚ))

/-- Model of `df[column].median()`: the 0.5 quantile of the non-missing
values, `none` (NaN) when there is none. -/
def seriesMedian (col : List (Option ℚ)) : Option ℚ :=
  quantile col (1/2)

/-- Model of `df[column].mode()`: the non-missing values of maximal
multiplicity, in ascending order (pandas sorts the modes); empty for a
column with no non-missing value. -/
def seriesMode (col : List (Option ℚ)) : List ℚ :=
  let xs := nonMissing col
  let vals := List.insertionSort (· ≤ ·) xs.dedup
  let maxC := (vals.map (fun v => xs.count v)).foldr max 0
  vals.filter (fun v => xs.count v == maxC)

/-- The four sub-methods of the missing-value radio button (line 49). -/
inductive MissingMethod : Type where
  | mean | median | mode | drop

/-- Model of `df[column_name].fillna(value, inplace=True)` over table
rows `(cell, rest)`: replace each missing cell of the target column by
`value`; filling with NaN (`none`, as happens when the statistic of an
all-NaN column is itself NaN) changes nothing. -/
def fillnaRows {β : Type} (df : List (Option ℚ × β)) : Option ℚ → List (Option ℚ × β)
  | none => df
  | some x => df.map (fun r => (some (r.1.getD x), r.2))

/-- Model of the numeric branch of the missing-value handler
(lines 50–58).  `none` is the `KeyError` crash of `df[column].mode()[0]`
on a column whose mode list is empty; the other sub-methods always
produce a table.  `Drop` is `df.dropna(subset=[column_name])`: it keeps
exactly the rows whose target cell is present. -/
def handleMissingNum {β : Type} :
    MissingMethod → List (Option ℚ × β) → Option (List (Option ℚ × β))
  | MissingMethod.mean, df => some (fillnaRows df (seriesMean (df.map Prod.fst)))
  | MissingMethod.median, df => some (fillnaRows df (seriesMedian (df.map Prod.fst)))
  | MissingMethod.mode, df =>
      match seriesMode (df.map Prod.fst) with
      | [] => none
      | m :: _ => some (fillnaRows df (some m))
  | MissingMethod.drop, df => some (df.filter (fun r => r.1.isSome))

/-- Model of the non-numeric branch of the missing-value handler
(lines 59–60): whatever sub-method was chosen — `Drop` included — the
code only emits the warning `Cannot impute missing values for
non-numeric column` and leaves the table untouched. -/
def handleMissingCat {β : Type} (_ : MissingMethod)
    (df : List (Option String × β)) : List (Option String × β) :=
  df

/-- Whether a row survives the outlier-removal filter
`(df[column] >= lb) & (df[column] <= ub)` (line 71); a `NaN` cell fails
both comparisons in pandas. -/
def keptCell (lb ub : ℚ) : Option ℚ → Bool
  | none => false
  | some v => decide (lb ≤ v) && decide (v ≤ ub)

/-- Model of `Remove Outliers` (lines 67–71) on table rows: bounds from
the current column, then keep the rows inside them.  With an all-NaN
column the quantiles are NaN, every comparison is `False`, and the whole
table empties. -/
def removeOutliersRows {β : Type} (df : List (Option ℚ × β)) : List (Option ℚ × β) :=
  match iqrBounds (df.map Prod.fst) with
  | none => []
  | some (lb, ub) => df.filter (fun r => keptCell lb ub r.1)

/-- Column view of `Remove Outliers` (lines 67–71). -/
def removeOutliersCol (col : List (Option ℚ)) : List (Option ℚ) :=
  match iqrBounds col with
  | none => []
  | some (lb, ub) => col.filter (keptCell lb ub)

/-- One cell of `df[column].clip(lower, upper)` (line 76): `NaN` stays
`NaN`, a number is clamped as `min (max v lower) upper`. -/
def capCell (lb ub : ℚ) : Option ℚ → Option ℚ
  | none => none
  | some v => some (min (max v lb) ub)

/-- Model of `Cap Outliers` (lines 72–76): bounds from the column state
immediately before capping, then clip every cell; with an all-NaN column
the NaN bounds clip nothing. -/
def capOutliers (col : List (Option ℚ)) : List (Option ℚ) :=
  match iqrBounds col with
  | none => col
  | some (lb, ub) => col.map (capCell lb ub)

/-- The two sub-methods of the outlier radio button (line 66). -/
inductive OutlierMethod : Type where
  | remove | cap

/-- Model of the outlier handler with its dtype guard (line 65):
`if "Handle Outliers" in options and pd.api.types.is_numeric_dtype(...)`.
On a numeric column the chosen sub-method runs; on a categorical column
the conjunction fails and the column is left untouched. -/
def handleOutliersCol (m : OutlierMethod) : ColData → ColData
  | ColData.num vals =>
      match m with
      | OutlierMethod.remove => ColData.num (removeOutliersCol vals)
      | OutlierMethod.cap => ColData.num (capOutliers vals)
  | ColData.cat vals => ColData.cat vals

/-- Model of the standardization step's dtype guard (line 78): on a
non-numeric column the conjunction
`"Standardize Data" in options and is_numeric_dtype(...)` fails and
nothing happens.  (The numeric branch, line 79, divides by the real
standard deviation and is not needed by any claim.) -/
def standardizeCat {β : Type} (df : List (Option String × β)) : List (Option String × β) :=
  df

/-- The two entries of the encoding selectbox (line 84). -/
inductive EncodeMethod : Type where
  | oneHot | label

/-- Model of the categorical-encoding step's dtype guard (line 81): a
numeric column is neither of categorical dtype nor of object dtype, so
the conjunction fails and the table is left untouched for either
sub-method. -/
def encodeCategoricalNum {β : Type} (_ : EncodeMethod)
    (df : List (Option ℚ × β)) : List (Option ℚ × β) :=
  df

/-- Modelled from sklearn's `LabelEncoder.fit_transform` (line 91), as
the spec describes it: each value is replaced by the index of that value
in the sorted list of distinct values. -/
def labelTransform (xs : List ℚ) : List ℕ :=
  let classes := List.insertionSort (· ≤ ·) xs.dedup
  xs.map (fun v => classes.indexOf v)

/-- The fixed candidate-encoding list of `load_data` (line 104). -/
def encodings : List String := ["utf-8", "latin1", "ISO-8859-1", "cp1252"]

/-- Loop body of `load_data` (lines 105–110): try `pd.read_csv` with each
encoding in turn; a raised `UnicodeDecodeError` (`Except.error`) is
caught and the next encoding is tried; the first parsed table is
returned. -/
def loadDataAux {T E : Type} (read_csv : String → Except E T) : List String → Option T
  | [] => none
  | e :: rest =>
      match read_csv e with
      | Except.ok t => some t
      | Except.error _ => loadDataAux read_csv rest

/-- Model of `load_data` (lines 103–112): `read_csv` abstracts
`pd.read_csv(uploaded_file, encoding=e)`, returning either a parsed
table or a raised `UnicodeDecodeError`.  When every candidate encoding
fails, the function reports the failure (`st.error`) and returns `None`
— it does not re-raise. -/
def load_data {T E : Type} (read_csv : String → Except E T) : Option T :=
  loadDataAux read_csv encodings

lemma loadDataAux_eq_none {T E : Type} (read_csv : String → Except E T)
    (l : List String) (h : ∀ e ∈ l, ∃ err, read_csv e = Except.error err) :
    loadDataAux read_csv l = none := by
  induction l with
  | nil => rfl
  | cons e rest ih =>
    obtain ⟨err, herr⟩ := h e (List.mem_cons_self e rest)
    simp only [loadDataAux, herr]
    exact ih (fun x hx => h x (List.mem_cons_of_mem e hx))

/-- C2: when `pd.read_csv` raises `UnicodeDecodeError` for each of the 4
candidate encodings, `load_data` returns `None` (the decode-failure
value) to its caller instead of propagating the exception. -/
theorem load_data_all_encodings_fail {T E : Type} (read_csv : String → Except E T)
    (h : ∀ e ∈ encodings, ∃ err, read_csv e = Except.error err) :
    encodings.length = 4 ∧ load_data read_csv = none :=
  ⟨rfl, loadDataAux_eq_none read_csv encodings h⟩

/-- C2 witness: a byte stream on which every candidate encoding raises. -/
theorem load_data_all_encodings_fail_witness :
    (∀ e ∈ encodings, ∃ err, (fun (_ : String) => (Except.error () : Except Unit Unit)) e
        = Except.error err) ∧
      load_data (fun (_ : String) => (Except.error () : Except Unit Unit)) = none :=
  ⟨fun _ _ => ⟨(), rfl⟩,
    (load_data_all_encodings_fail _ (fun _ _ => ⟨(), rfl⟩)).2⟩

lemma dropDupAux_idem {α κ : Type} [DecidableEq κ] (key : α → κ)
    (l : List α) : ∀ seen : List κ,
    dropDupAux key seen (dropDupAux key seen l) = dropDupAux key seen l := by
  induction l with
  | nil => intro seen; rfl
  | cons r rs ih =>
    intro seen
    by_cases h : key r ∈ seen
    · simp only [dropDupAux, if_pos h]
      exact ih seen
    · simp only [dropDupAux, if_pos h, if_neg h]
      exact congrArg (r :: ·) (ih (key r :: seen))

/-- C7: `RemoveDuplicates` on one column is idempotent — running
`df.drop_duplicates(subset=[column])` twice gives the same table as
running it once, for any table and key column. -/
theorem drop_duplicates_idempotent {α κ : Type} [DecidableEq κ]
    (key : α → κ) (df : List α) :
    drop_duplicates key (drop_duplicates key df) = drop_duplicates key df :=
  dropDupAux_idem key df []

/-- C1 counterexample: a categorical/text column with a missing entry on
which the `Drop` sub-method removes nothing — the non-numeric branch
(lines 59–60) only warns, so the missing row survives, contradicting
"removes every row where this column is missing, regardless of dtype". -/
theorem drop_missing_cat_counterexample :
    handleMissingCat MissingMethod.drop [((none : Option String), (0 : Nat))]
        = [(none, 0)] ∧
      missingCount (([((none : Option String), (0 : Nat))]).map Prod.fst) = 1 :=
  ⟨rfl, rfl⟩

/-- C1 amended: `Drop` removes exactly the rows whose target cell is
missing when the column is numeric (lines 57–58); on a non-numeric
column the whole missing-value handler — `Drop` included — is a warning
no-op (lines 59–60). -/
theorem drop_missing_by_dtype {β : Type}
    (dfN : List (Option ℚ × β)) (dfC : List (Option String × β)) :
    (∃ d, handleMissingNum MissingMethod.drop dfN = some d ∧
        (∀ r ∈ d, r.1.isSome = true) ∧
        (∀ r ∈ dfN, r.1.isSome = true → r ∈ d)) ∧
      handleMissingCat MissingMethod.drop dfC = dfC := by
  refine ⟨⟨dfN.filter (fun r => r.1.isSome), rfl, ?_, ?_⟩, rfl⟩
  · intro r hr
    exact (List.mem_filter.mp hr).2
  · intro r hr h
    exact List.mem_filter.mpr ⟨hr, h⟩

lemma foldr_max_mem (l : List ℕ) (h : l ≠ []) : l.foldr max 0 ∈ l := by
  induction l with
  | nil => exact absurd rfl h
  | cons a t ih =>
    cases t with
    | nil => simp
    | cons b t2 =>
      rcases max_choice a ((b :: t2).foldr max 0) with hc | hc
      · simp only [List.foldr_cons] at hc ⊢
        rw [hc]
        exact List.mem_cons_self _ _
      · simp only [List.foldr_cons] at hc ⊢
        rw [hc]
        exact List.mem_cons_of_mem _ (ih (by simp))

lemma seriesMode_ne_nil (col : List (Option ℚ)) (h : nonMissing col ≠ []) :
    seriesMode col ≠ [] := by
  have hd : (nonMissing col).dedup ≠ [] := by
    simpa [List.dedup_eq_nil] using h
  have hv : List.insertionSort (· ≤ ·) (nonMissing col).dedup ≠ [] := by
    intro hcon
    exact hd (List.eq_nil_of_length_eq_zero
      (by simpa using congrArg List.length hcon))
  have hmap : (List.insertionSort (· ≤ ·) (nonMissing col).dedup).map
      (fun v => (nonMissing col).count v) ≠ [] := by
    simpa using hv
  obtain ⟨v, hvmem, hvc⟩ := List.mem_map.mp (foldr_max_mem _ hmap)
  have : v ∈ seriesMode col := by
    simp only [seriesMode]
    exact List.mem_filter.mpr ⟨hvmem, by simpa using hvc⟩
  exact List.ne_nil_of_mem this

lemma fillnaRows_length {β : Type} (df : List (Option ℚ × β)) (v : Option ℚ) :
    (fillnaRows df v).length = df.length := by
  cases v with
  | none => rfl
  | some x => simp [fillnaRows]

lemma fillnaRows_some_missing {β : Type} (df : List (Option ℚ × β)) (x : ℚ) :
    missingCount ((fillnaRows df (some x)).map Prod.fst) = 0 := by
  induction df with
  | nil => rfl
  | cons r rs ih => simpa [fillnaRows, missingCount] using ih

lemma sortedVals_isEmpty_false (col : List (Option ℚ)) (h : nonMissing col ≠ []) :
    (sortedVals col).isEmpty = false := by
  rw [List.isEmpty_eq_false]
  intro hcon
  exact h (List.eq_nil_of_length_eq_zero
    (by simpa [sortedVals] using congrArg List.length hcon))

lemma quantile_isSome (col : List (Option ℚ)) (q : ℚ) (h : nonMissing col ≠ []) :
    ∃ x, quantile col q = some x :=
  ⟨interpAt (sortedVals col) (q * (((sortedVals col).length : ℚ) - 1)),
    by simp [quantile, sortedVals_isEmpty_false col h]⟩

lemma seriesMean_isSome (col : List (Option ℚ)) (h : nonMissing col ≠ []) :
    ∃ x, seriesMean col = some x := by
  have he : (nonMissing col).isEmpty = false := by
    rw [List.isEmpty_eq_false]
    exact h
  exact ⟨(nonMissing col).sum / ((nonMissing col).length : ℚ),
    by simp [seriesMean, he]⟩

lemma nonMissing_ne_nil_of_mem {β : Type} (df : List (Option ℚ × β))
    (r : Option ℚ × β) (hr : r ∈ df) (h : r.1.isSome = true) :
    nonMissing (df.map Prod.fst) ≠ [] := by
  obtain ⟨v, hv⟩ := Option.isSome_iff_exists.mp h
  apply List.ne_nil_of_mem (a := v)
  exact List.mem_filterMap.mpr ⟨some v, List.mem_map.mpr ⟨r, hr, hv⟩, rfl⟩

/-- C6 counterexample: a numeric column whose every cell is missing.
Its mean is NaN, `fillna(NaN)` fills nothing (lines 51–52), so `Impute
with Mean` leaves the column with one missing value, not zero. -/
theorem impute_all_missing_counterexample :
    handleMissingNum MissingMethod.mean [((none : Option ℚ), (0 : Nat))]
        = some [(none, 0)] ∧
      missingCount (([((none : Option ℚ), (0 : Nat))]).map Prod.fst) = 1 :=
  ⟨rfl, rfl⟩

/-- C6 amended: on a numeric column with at least one non-missing value,
Mean/Median/Mode imputation (lines 50–56) succeeds, leaves zero missing
values in the column, and does not change the row count. -/
theorem impute_fills_all_missing {β : Type} (m : MissingMethod)
    (df : List (Option ℚ × β))
    (hm : m = MissingMethod.mean ∨ m = MissingMethod.median ∨ m = MissingMethod.mode)
    (hx : ∃ r ∈ df, r.1.isSome = true) :
    ∃ d, handleMissingNum m df = some d ∧
      missingCount (d.map Prod.fst) = 0 ∧ d.length = df.length := by
  obtain ⟨r, hr, hrs⟩ := hx
  have hnm : nonMissing (df.map Prod.fst) ≠ [] :=
    nonMissing_ne_nil_of_mem df r hr hrs
  rcases hm with rfl | rfl | rfl
  · obtain ⟨x, hx'⟩ := seriesMean_isSome (df.map Prod.fst) hnm
    exact ⟨_, by simp [handleMissingNum, hx'],
      fillnaRows_some_missing df x, fillnaRows_length df (some x)⟩
  · obtain ⟨x, hx'⟩ := quantile_isSome (df.map Prod.fst) (1/2) hnm
    have hmed : seriesMedian (df.map Prod.fst) = some x := hx'
    exact ⟨_, by simp only [handleMissingNum, hmed],
      fillnaRows_some_missing df x, fillnaRows_length df (some x)⟩
  · obtain ⟨v, vs, hsm⟩ : ∃ v vs, seriesMode (df.map Prod.fst) = v :: vs := by
      rcases hseq : seriesMode (df.map Prod.fst) with _ | ⟨v, vs⟩
      · exact absurd hseq (seriesMode_ne_nil _ hnm)
      · exact ⟨v, vs, rfl⟩
    exact ⟨_, by simp [handleMissingNum, hsm],
      fillnaRows_some_missing df v, fillnaRows_length df (some v)⟩

/-- C6 witness: a concrete numeric column `[1, NaN]` on which mean
imputation yields a column with no missing value and the same length. -/
theorem impute_fills_all_missing_witness :
    (∃ r ∈ [((some 1 : Option ℚ), (0 : Nat)), (none, 1)], r.1.isSome = true) ∧
      ∃ d, handleMissingNum MissingMethod.mean
          [((some 1 : Option ℚ), (0 : Nat)), (none, 1)] = some d ∧
        missingCount (d.map Prod.fst) = 0 ∧ d.length = 2 :=
  ⟨⟨(some 1, 0), by simp, rfl⟩,
    impute_fills_all_missing MissingMethod.mean _ (Or.inl rfl)
      ⟨(some 1, 0), by simp, rfl⟩⟩

/-- C3 counterexample: `Encode Categorical Data` selected on a numeric
column.  The guard at line 81 re-checks the dtype and leaves the table
untouched, although label encoding would have replaced the values 10, 20
by the codes 0, 1 — so the Transformer does not "perform the operation
anyway". -/
theorem encode_numeric_skip_counterexample :
    encodeCategoricalNum EncodeMethod.label
        [((some 10 : Option ℚ), (0 : Nat)), (some 20, 1)]
      = [(some 10, 0), (some 20, 1)] ∧
    labelTransform [10, 20] = [0, 1] ∧
    [(some (0 : ℚ)), some 1] ≠ [some 10, some 20] := by
  refine ⟨rfl, by decide, by decide⟩

/-- C3 amended: for HandleOutliers, Standardize and EncodeCategorical the
Transformer does re-validate dtype compatibility (the conjunctions at
lines 65, 78 and 81): on a column of the wrong dtype it silently skips
the operation, while on the right dtype the operation really runs (last
conjunct: outlier removal on a numeric column drops the outlier). -/
theorem wrong_dtype_is_skipped {β : Type} (m : OutlierMethod) (e : EncodeMethod)
    (vals : List (Option String)) (dfC : List (Option String × β))
    (dfN : List (Option ℚ × β)) :
    handleOutliersCol m (ColData.cat vals) = ColData.cat vals ∧
    standardizeCat dfC = dfC ∧
    encodeCategoricalNum e dfN = dfN ∧
    handleOutliersCol OutlierMethod.remove
        (ColData.num [some 1, some 2, some 3, some 4, some 100])
      = ColData.num [some 1, some 2, some 3, some 4] := by
  refine ⟨rfl, rfl, rfl, ?_⟩
  simp only [handleOutliersCol, removeOutliersCol, iqrBounds_example]
  norm_num [keptCell]

lemma columnIssues_eq_nil (c : ColData) (h1 : colMissing c = 0)
    (h2 : colDup c = 0) (h3 : colOutliers c = 0) : columnIssues c = [] := by
  simp [columnIssues, h1, h2, h3]

/-- C8: a column with zero missing values, zero per-column duplicates and
zero IQR outliers gets no entry at all in the mapping `detect_issues`
returns — the `if column_issues:` guard (lines 34–35) filters it out
rather than storing an empty list. -/
theorem detect_issues_omits_clean_column (df : List (String × ColData))
    (name : String) (c : ColData)
    (hnd : (df.map Prod.fst).Nodup) (hmem : (name, c) ∈ df)
    (h1 : colMissing c = 0) (h2 : colDup c = 0) (h3 : colOutliers c = 0) :
    ∀ l, (name, l) ∉ detect_issues df := by
  intro l hl
  obtain ⟨hmap, hkeep⟩ := List.mem_filter.mp hl
  obtain ⟨p, hp, hpe⟩ := List.mem_map.mp hmap
  have hfst : p.1 = name := congrArg Prod.fst hpe
  have hpc : p = (name, c) := by
    apply List.inj_on_of_nodup_map hnd hp hmem
    simpa using hfst
  rw [hpc] at hpe
  have hle : l = columnIssues c := (congrArg Prod.snd hpe).symm
  rw [hle, columnIssues_eq_nil c h1 h2 h3] at hkeep
  simp at hkeep

/-- C8 witness: a one-column table with no issue; the detector returns no
entry for it. -/
theorem detect_issues_omits_clean_column_witness :
    ((([("a", ColData.cat [some "x"])]).map Prod.fst).Nodup ∧
        ("a", ColData.cat [some "x"]) ∈ [("a", ColData.cat [some "x"])] ∧
        colMissing (ColData.cat [some "x"]) = 0 ∧
        colDup (ColData.cat [some "x"]) = 0 ∧
        colOutliers (ColData.cat [some "x"]) = 0) ∧
      ("a", ([] : List String)) ∉ detect_issues [("a", ColData.cat [some "x"])] :=
  ⟨⟨by simp, by simp, rfl, rfl, rfl⟩,
    detect_issues_omits_clean_column _ "a" (ColData.cat [some "x"])
      (by simp) (by simp) rfl rfl rfl []⟩

lemma missingCount_cons {α : Type} (c : Option α) (t : List (Option α)) :
    missingCount (c :: t) = (if c.isNone = true then 1 else 0) + missingCount t := by
  cases c <;> simp [missingCount, Nat.add_comm]

lemma dropDup_missing_zero {γ β : Type} [DecidableEq γ]
    (df : List (Option γ × β)) :
    ∀ seen, none ∈ seen →
      missingCount ((dropDupAux Prod.fst seen df).map Prod.fst) = 0 := by
  induction df with
  | nil => intro seen _; rfl
  | cons r rs ih =>
    intro seen hs
    by_cases h : r.1 ∈ seen
    · simp only [dropDupAux, if_pos h]
      exact ih seen hs
    · have hr1 : r.1.isNone = false := by
        cases hr : r.1 with
        | none => exact absurd (hr ▸ hs) h
        | some v => rfl
      simp only [dropDupAux, if_neg h, List.map_cons, missingCount_cons, hr1]
      simpa using ih (r.1 :: seen) (List.mem_cons_of_mem _ hs)

lemma dropDup_missing_one {γ β : Type} [DecidableEq γ]
    (df : List (Option γ × β)) :
    ∀ seen, none ∉ seen → 1 ≤ missingCount (df.map Prod.fst) →
      missingCount ((dropDupAux Prod.fst seen df).map Prod.fst) = 1 := by
  induction df with
  | nil => intro seen _ hm; exact absurd hm (by simp [missingCount])
  | cons r rs ih =>
    intro seen hs hm
    by_cases h : r.1 ∈ seen
    · have hr1 : r.1.isNone = false := by
        cases hr : r.1 with
        | none => exact absurd (hr ▸ h) hs
        | some v => rfl
      simp only [dropDupAux, if_pos h]
      refine ih seen hs ?_
      simpa [missingCount_cons, hr1] using hm
    · simp only [dropDupAux, if_neg h, List.map_cons, missingCount_cons]
      cases hr : r.1 with
      | none =>
        rw [dropDup_missing_zero rs (none :: seen) (List.mem_cons_self _ _)]
        simp
      | some v =>
        simp only [Option.isNone_some, if_neg (by simp : ¬ (false = true))]
        have hs' : none ∉ (some v : Option γ) :: seen := by
          intro hcon
          rcases List.mem_cons.mp hcon with hc | hc
          · exact Option.noConfusion hc
          · exact hs hc
        have hm' : 1 ≤ missingCount (rs.map Prod.fst) := by
          have hr1 : r.1.isNone = false := by rw [hr]; rfl
          simpa [missingCount_cons, hr1] using hm
        simpa using ih ((some v : Option γ) :: seen) hs' hm'

lemma dupFlags_ge_missing {γ β : Type} [DecidableEq γ]
    (df : List (Option γ × β)) :
    ∀ seen, none ∈ seen →
      missingCount (df.map Prod.fst) ≤ (dupFlagsAux Prod.fst seen df).count true := by
  induction df with
  | nil => intro seen _; simp [missingCount]
  | cons r rs ih =>
    intro seen hs
    by_cases h : r.1 ∈ seen
    · simp only [dupFlagsAux, if_pos h, List.count_cons_self, List.map_cons,
        missingCount_cons]
      have := ih seen hs
      split <;> omega
    · have hr1 : r.1.isNone = false := by
        cases hr : r.1 with
        | none => exact absurd (hr ▸ hs) h
        | some v => rfl
      simp only [dupFlagsAux, if_neg h, List.map_cons, missingCount_cons, hr1,
        if_neg (by simp : ¬ (false = true))]
      have hcount : ((false :: dupFlagsAux Prod.fst (r.1 :: seen) rs).count true)
          = (dupFlagsAux Prod.fst (r.1 :: seen) rs).count true := rfl
      rw [hcount]
      simpa using ih (r.1 :: seen) (List.mem_cons_of_mem _ hs)

lemma dupFlags_ge_missing_sub_one {γ β : Type} [DecidableEq γ]
    (df : List (Option γ × β)) :
    ∀ seen, none ∉ seen →
      missingCount (df.map Prod.fst) - 1 ≤ (dupFlagsAux Prod.fst seen df).count true := by
  induction df with
  | nil => intro seen _; simp [missingCount]
  | cons r rs ih =>
    intro seen hs
    by_cases h : r.1 ∈ seen
    · have hr1 : r.1.isNone = false := by
        cases hr : r.1 with
        | none => exact absurd (hr ▸ h) hs
        | some v => rfl
      simp only [dupFlagsAux, if_pos h, List.count_cons_self, List.map_cons,
        missingCount_cons, hr1, if_neg (by simp : ¬ (false = true))]
      have := ih seen hs
      omega
    · simp only [dupFlagsAux, if_neg h, List.map_cons, missingCount_cons]
      have hcount : ∀ l : List Bool, ((false :: l).count true) = l.count true :=
        fun l => rfl
      cases hr : r.1 with
      | none =>
        simp only [Option.isNone_none, if_pos rfl, if_true, hcount]
        have := dupFlags_ge_missing rs ((none : Option γ) :: seen)
          (List.mem_cons_self _ _)
        omega
      | some v =>
        simp only [Option.isNone_some, if_neg (by simp : ¬ (false = true)), hcount]
        have hs' : none ∉ (some v : Option γ) :: seen := by
          intro hcon
          rcases List.mem_cons.mp hcon with hc | hc
          · exact Option.noConfusion hc
          · exact hs hc
        have := ih ((some v : Option γ) :: seen) hs'
        omega

/-- C9: in a column with two or more missing entries the duplicate check
treats the missing cells as equal: all missing rows after the first are
counted by `df.duplicated(subset=[column]).sum()` (the duplicate count is
at least the number of missing rows minus one), and
`df.drop_duplicates(subset=[column])` keeps exactly one missing row. -/
theorem missing_rows_count_as_duplicates {γ β : Type} [DecidableEq γ]
    (df : List (Option γ × β)) (h2 : 2 ≤ missingCount (df.map Prod.fst)) :
    missingCount (df.map Prod.fst) - 1 ≤ dupCount Prod.fst df ∧
      missingCount ((drop_duplicates Prod.fst df).map Prod.fst) = 1 :=
  ⟨dupFlags_ge_missing_sub_one df [] (by simp),
    dropDup_missing_one df [] (by simp) (by omega)⟩

/-- C9 witness: the column `[NaN, NaN]` — the second missing row counts
as a duplicate and deduplication keeps a single missing row. -/
theorem missing_rows_count_as_duplicates_witness :
    2 ≤ missingCount (([((none : Option ℚ), (0 : Nat)), (none, 1)]).map Prod.fst) ∧
      (missingCount (([((none : Option ℚ), (0 : Nat)), (none, 1)]).map Prod.fst) - 1
          ≤ dupCount Prod.fst [((none : Option ℚ), (0 : Nat)), (none, 1)] ∧
        missingCount ((drop_duplicates Prod.fst
            [((none : Option ℚ), (0 : Nat)), (none, 1)]).map Prod.fst) = 1) :=
  ⟨by decide, missing_rows_count_as_duplicates _ (by decide)⟩

lemma sortedVals_sorted (col : List (Option ℚ)) :
    (sortedVals col).Sorted (· ≤ ·) :=
  List.sorted_insertionSort _ _

lemma sorted_getD_le (s : List ℚ) (hs : s.Sorted (· ≤ ·)) (i j : Nat)
    (hij : i ≤ j) (hj : j < s.length) : s.getD i 0 ≤ s.getD j 0 := by
  have hi : i < s.length := lt_of_le_of_lt hij hj
  rw [List.getD_eq_get s 0 hi, List.getD_eq_get s 0 hj]
  exact hs.rel_get_of_le (by exact hij)

lemma getD_succ_ge (s : List ℚ) (hs : s.Sorted (· ≤ ·)) (i : Nat) :
    s.getD i 0 ≤ s.getD (i + 1) (s.getD i 0) := by
  by_cases h : i + 1 < s.length
  · rw [List.getD_eq_get s _ h]
    have hi : i < s.length := Nat.lt_of_succ_lt h
    rw [List.getD_eq_get s 0 hi]
    exact hs.rel_get_of_le (by exact Nat.le_succ i)
  · rw [List.getD_eq_default s _ (Nat.le_of_not_lt h)]

lemma interpAt_ge_lo (s : List ℚ) (hs : s.Sorted (· ≤ ·)) (h : ℚ) :
    s.getD (Int.toNat ⌊h⌋) 0 ≤ interpAt s h := by
  simp only [interpAt]
  have h1 : 0 ≤ Int.fract h := Int.fract_nonneg h
  have h2 := getD_succ_ge s hs (Int.toNat ⌊h⌋)
  nlinarith

lemma interpAt_le_hi (s : List ℚ) (hs : s.Sorted (· ≤ ·)) (h : ℚ) :
    interpAt s h ≤ s.getD (Int.toNat ⌊h⌋ + 1) (s.getD (Int.toNat ⌊h⌋) 0) := by
  simp only [interpAt]
  have h1 : Int.fract h < 1 := Int.fract_lt_one h
  have h1' : 0 ≤ Int.fract h := Int.fract_nonneg h
  have h2 := getD_succ_ge s hs (Int.toNat ⌊h⌋)
  nlinarith

lemma interpAt_mono (s : List ℚ) (hs : s.Sorted (· ≤ ·)) (h h' : ℚ)
    (h0 : 0 ≤ h) (hle : h ≤ h') (hub : h' ≤ (s.length : ℚ) - 1) :
    interpAt s h ≤ interpAt s h' := by
  have h0' : 0 ≤ h' := le_trans h0 hle
  have hfh : (0 : ℤ) ≤ ⌊h⌋ := Int.floor_nonneg.mpr h0
  have hfh' : (0 : ℤ) ≤ ⌊h'⌋ := Int.floor_nonneg.mpr h0'
  have hii : ⌊h⌋ ≤ ⌊h'⌋ := Int.floor_le_floor hle
  by_cases heq : ⌊h⌋ = ⌊h'⌋
  · simp only [interpAt, heq]
    have hfr : Int.fract h ≤ Int.fract h' := by
      simp only [Int.fract]
      rw [heq]
      linarith
    have h2 := getD_succ_ge s hs (Int.toNat ⌊h'⌋)
    nlinarith [Int.fract_nonneg h]
  · have hlt : ⌊h⌋ < ⌊h'⌋ := lt_of_le_of_ne hii heq
    have hlen : 1 ≤ s.length := by
      have hq : (1 : ℚ) ≤ (s.length : ℚ) := by linarith
      exact_mod_cast hq
    have hfl' : ⌊h'⌋ ≤ (s.length : ℤ) - 1 := by
      have : ⌊h'⌋ ≤ ⌊(s.length : ℚ) - 1⌋ := Int.floor_le_floor hub
      calc ⌊h'⌋ ≤ ⌊(s.length : ℚ) - 1⌋ := this
        _ = (s.length : ℤ) - 1 := by
            rw [show ((s.length : ℚ) - 1) = (((s.length : ℤ) - 1 : ℤ) : ℚ) by push_cast; ring]
            exact Int.floor_intCast _
    have hi'n : Int.toNat ⌊h'⌋ < s.length := by omega
    have hi1 : Int.toNat ⌊h⌋ + 1 ≤ Int.toNat ⌊h'⌋ := by omega
    have hin : Int.toNat ⌊h⌋ + 1 < s.length := lt_of_le_of_lt hi1 hi'n
    have step1 : interpAt s h ≤ s.getD (Int.toNat ⌊h⌋ + 1) (s.getD (Int.toNat ⌊h⌋) 0) :=
      interpAt_le_hi s hs h
    have step2 : s.getD (Int.toNat ⌊h⌋ + 1) (s.getD (Int.toNat ⌊h⌋) 0)
        = s.getD (Int.toNat ⌊h⌋ + 1) 0 := by
      rw [List.getD_eq_get s _ hin, List.getD_eq_get s 0 hin]
    have step3 : s.getD (Int.toNat ⌊h⌋ + 1) 0 ≤ s.getD (Int.toNat ⌊h'⌋) 0 :=
      sorted_getD_le s hs _ _ hi1 hi'n
    have step4 : s.getD (Int.toNat ⌊h'⌋) 0 ≤ interpAt s h' :=
      interpAt_ge_lo s hs h'
    linarith [step1, step2 ▸ step1]

lemma quantile_q1_le_q3 (col : List (Option ℚ)) (q1 q3 : ℚ)
    (h1 : quantile col (1/4) = some q1) (h3 : quantile col (3/4) = some q3) :
    q1 ≤ q3 := by
  by_cases he : (sortedVals col).isEmpty = true
  · simp [quantile, he] at h1
  · have he' : (sortedVals col).isEmpty = false := Bool.eq_false_iff.mpr he
    simp only [quantile, he', Bool.false_eq_true, if_false, Option.some_inj] at h1 h3
    have hlen : 1 ≤ (sortedVals col).length := by
      cases hsv : sortedVals col with
      | nil => rw [hsv] at he'; simp at he'
      | cons a t => simp [hsv]
    have hn1 : (0 : ℚ) ≤ ((sortedVals col).length : ℚ) - 1 := by
      have : (1 : ℚ) ≤ ((sortedVals col).length : ℚ) := by exact_mod_cast hlen
      linarith
    rw [← h1, ← h3]
    apply interpAt_mono (sortedVals col) (sortedVals_sorted col)
    · nlinarith
    · nlinarith
    · nlinarith

lemma iqrBounds_lb_le_ub (col : List (Option ℚ)) (lb ub : ℚ)
    (h : iqrBounds col = some (lb, ub)) : lb ≤ ub := by
  unfold iqrBounds at h
  rcases hq1 : quantile col (1/4) with _ | q1 <;> rw [hq1] at h
  · simp at h
  rcases hq3 : quantile col (3/4) with _ | q3 <;> rw [hq3] at h
  · simp at h
  have hle := quantile_q1_le_q3 col q1 q3 hq1 hq3
  simp only [Option.some_inj, Prod.mk.injEq] at h
  obtain ⟨hlb, hub⟩ := h
  rw [← hlb, ← hub]
  linarith

/-- C5: capping a numeric column clips every present value into
`[q1 − 1.5·iqr, q3 + 1.5·iqr]` computed from the column immediately
before capping (lines 72–76), leaves in-bound values unchanged, and
leaves missing cells missing. -/
theorem cap_outliers_within_bounds (col : List (Option ℚ)) (lb ub : ℚ)
    (hb : iqrBounds col = some (lb, ub)) :
    capOutliers col = col.map (capCell lb ub) ∧
      (∀ v : ℚ, some v ∈ capOutliers col → lb ≤ v ∧ v ≤ ub) ∧
      (∀ v : ℚ, lb ≤ v → v ≤ ub → capCell lb ub (some v) = some v) ∧
      capCell lb ub none = none := by
  have hlu : lb ≤ ub := iqrBounds_lb_le_ub col lb ub hb
  have hmap : capOutliers col = col.map (capCell lb ub) := by
    unfold capOutliers
    rw [hb]
  refine ⟨hmap, ?_, ?_, rfl⟩
  · intro v hv
    rw [hmap] at hv
    obtain ⟨c, _, hc⟩ := List.mem_map.mp hv
    cases c with
    | none => exact Option.noConfusion hc
    | some w =>
      have hvw : v = min (max w lb) ub := (Option.some_inj.mp hc).symm
      constructor
      · rw [hvw]
        exact le_min (le_max_right w lb) hlu
      · rw [hvw]
        exact min_le_right _ ub
  · intro v hl hu
    simp only [capCell, max_eq_left hl, min_eq_left hu]

/-- C5 witness: the spec's example column `[1,2,3,4,100]` has bounds
`[-1, 7]`; capping yields `[1,2,3,4,7]` and each value lies within the
bounds. -/
theorem cap_outliers_within_bounds_witness :
    iqrBounds [some 1, some 2, some 3, some 4, some 100] = some (-1, 7) ∧
      capOutliers [some 1, some 2, some 3, some 4, some 100]
        = [some 1, some 2, some 3, some 4, some 7] ∧
      (∀ v : ℚ, some v ∈ capOutliers [some 1, some 2, some 3, some 4, some 100] →
        -1 ≤ v ∧ v ≤ 7) := by
  have h := cap_outliers_within_bounds _ _ _ iqrBounds_example
  refine ⟨iqrBounds_example, ?_, h.2.1⟩
  rw [h.1]
  norm_num [capCell]

lemma nonMissing_eq_nil_all_some {β : Type} (df : List (Option ℚ × β))
    (hm : ∀ r ∈ df, r.1.isSome = true)
    (h : nonMissing (df.map Prod.fst) = []) : df = [] := by
  cases df with
  | nil => rfl
  | cons r rs =>
    obtain ⟨v, hv⟩ := Option.isSome_iff_exists.mp (hm r (List.mem_cons_self r rs))
    simp [nonMissing, hv] at h

lemma iqrBounds_none_nonMissing (col : List (Option ℚ))
    (h : iqrBounds col = none) : nonMissing col = [] := by
  by_contra hne
  obtain ⟨x, hx⟩ := quantile_isSome col (1/4) hne
  obtain ⟨y, hy⟩ := quantile_isSome col (3/4) hne
  unfold iqrBounds at h
  rw [hx, hy] at h
  simp at h

lemma kept_outlier_partition {β : Type} (lb ub : ℚ)
    (df : List (Option ℚ × β)) (hm : ∀ r ∈ df, r.1.isSome = true) :
    (df.filter (fun r => keptCell lb ub r.1)).length
      + ((df.map Prod.fst).filter (isOutlierCell lb ub)).length = df.length := by
  induction df with
  | nil => rfl
  | cons r rs ih =>
    obtain ⟨v, hv⟩ := Option.isSome_iff_exists.mp (hm r (List.mem_cons_self r rs))
    have ih' := ih (fun x hx => hm x (List.mem_cons_of_mem r hx))
    rcases lt_or_le v lb with hl | hl
    · have hk : keptCell lb ub r.1 = false := by
        simp [keptCell, hv, decide_eq_false (not_le.mpr hl)]
      have ho : isOutlierCell lb ub r.1 = true := by
        simp [isOutlierCell, hv, decide_eq_true hl]
      simp only [List.filter_cons, List.map_cons, hk, ho, Bool.false_eq_true,
        if_false, eq_self_iff_true, if_true, List.length_cons]
      omega
    · rcases le_or_lt v ub with hu | hu
      · have hk : keptCell lb ub r.1 = true := by
          simp [keptCell, hv, decide_eq_true hl, decide_eq_true hu]
        have ho : isOutlierCell lb ub r.1 = false := by
          simp [isOutlierCell, hv, decide_eq_false (not_lt.mpr hl),
            decide_eq_false (not_lt.mpr hu)]
        simp only [List.filter_cons, List.map_cons, hk, ho, Bool.false_eq_true,
          if_false, eq_self_iff_true, if_true, List.length_cons]
        omega
      · have hk : keptCell lb ub r.1 = false := by
          simp [keptCell, hv, decide_eq_false (not_le.mpr hu)]
        have ho : isOutlierCell lb ub r.1 = true := by
          simp [isOutlierCell, hv, decide_eq_true hu]
        simp only [List.filter_cons, List.map_cons, hk, ho, Bool.false_eq_true,
          if_false, eq_self_iff_true, if_true, List.length_cons]
        omega

/-- C4 amended: on a numeric column with no missing values, `Remove
Outliers` (lines 67–71) keeps exactly the rows inside the pre-transform
IQR bounds; the row count drops by exactly the outlier count the
detector (lines 24–32) would report on the pre-transform column, a
strict decrease whenever that count is positive. -/
theorem remove_outliers_exact {β : Type} (df : List (Option ℚ × β))
    (hm : ∀ r ∈ df, r.1.isSome = true) :
    (∀ lb ub, iqrBounds (df.map Prod.fst) = some (lb, ub) →
        ∀ r ∈ removeOutliersRows df, ∃ v, r.1 = some v ∧ lb ≤ v ∧ v ≤ ub) ∧
      (removeOutliersRows df).length + outlierCount (df.map Prod.fst) = df.length ∧
      (0 < outlierCount (df.map Prod.fst) →
        (removeOutliersRows df).length < df.length) := by
  have hpart : (removeOutliersRows df).length + outlierCount (df.map Prod.fst)
      = df.length := by
    rcases hb : iqrBounds (df.map Prod.fst) with _ | ⟨lb, ub⟩
    · have hdf : df = [] :=
        nonMissing_eq_nil_all_some df hm (iqrBounds_none_nonMissing _ hb)
      subst hdf
      rfl
    · unfold removeOutliersRows outlierCount
      rw [hb]
      exact kept_outlier_partition lb ub df hm
  refine ⟨?_, hpart, fun hpos => by omega⟩
  intro lb ub hb r hr
  unfold removeOutliersRows at hr
  rw [hb] at hr
  obtain ⟨hrdf, hkr⟩ := List.mem_filter.mp hr
  obtain ⟨v, hv⟩ := Option.isSome_iff_exists.mp (hm r hrdf)
  refine ⟨v, hv, ?_⟩
  rw [hv] at hkr
  simp only [keptCell, Bool.and_eq_true, decide_eq_true_eq] at hkr
  exact hkr

/-- C4 witness: on the spec's example column `[1,2,3,4,100]` (no missing
values) removal keeps 4 of the 5 rows, exactly one fewer than the
pre-transform outlier count 1. -/
theorem remove_outliers_exact_witness :
    (∀ r ∈ [((some 1 : Option ℚ), (0 : Nat)), (some 2, 1), (some 3, 2),
        (some 4, 3), (some 100, 4)], r.1.isSome = true) ∧
      (removeOutliersRows [((some 1 : Option ℚ), (0 : Nat)), (some 2, 1),
            (some 3, 2), (some 4, 3), (some 100, 4)]).length
          + outlierCount (([((some 1 : Option ℚ), (0 : Nat)), (some 2, 1),
            (some 3, 2), (some 4, 3), (some 100, 4)]).map Prod.fst) = 5 :=
  ⟨by decide,
    (remove_outliers_exact _ (by decide)).2.1⟩

/-- Evaluation helper: the IQR bounds of the column `[0,0,0,0,NaN]` are
`(0, 0)` (quantiles ignore the missing cell). -/
theorem iqrBounds_zeros_example :
    iqrBounds [some 0, some 0, some 0, some 0, none] = some (0, 0) := by
  norm_num [iqrBounds, quantile, sortedVals, nonMissing, interpAt,
    List.insertionSort, List.orderedInsert, Int.fract,
    show Int.toNat 0 = 0 from rfl, show Int.toNat 2 = 2 from rfl]

/-- C4 counterexample: the numeric column `[0,0,0,0,NaN]` has outlier
count 0, yet `Remove Outliers` shrinks the table from 5 rows to 4 — the
NaN row fails both bound comparisons and is dropped — so the row count
does not decrease by exactly the pre-transform outlier count. -/
theorem remove_outliers_row_count_counterexample :
    outlierCount [some 0, some 0, some 0, some 0, none] = 0 ∧
      (removeOutliersRows [((some 0 : Option ℚ), (0 : Nat)), (some 0, 1),
          (some 0, 2), (some 0, 3), (none, 4)]).length = 4 := by
  constructor
  · unfold outlierCount
    rw [iqrBounds_zeros_example]
    decide
  · unfold removeOutliersRows
    rw [show ([((some 0 : Option ℚ), (0 : Nat)), (some 0, 1), (some 0, 2),
        (some 0, 3), (none, 4)]).map Prod.fst
      = [some 0, some 0, some 0, some 0, none] from rfl, iqrBounds_zeros_example]
    decide

lemma nonMissing_filter_isSome (col : List (Option ℚ)) :
    nonMissing (col.filter (fun c => c.isSome)) = nonMissing col := by
  induction col with
  | nil => rfl
  | cons c t ih =>
    cases c with
    | none => simpa [nonMissing, List.filter_cons] using ih
    | some v => simpa [nonMissing, List.filter_cons] using ih

lemma iqrBounds_filter_isSome (col : List (Option ℚ)) :
    iqrBounds (col.filter (fun c => c.isSome)) = iqrBounds col := by
  unfold iqrBounds quantile sortedVals
  rw [nonMissing_filter_isSome]

lemma filter_outlier_filter_isSome (lb ub : ℚ) (col : List (Option ℚ)) :
    (col.filter (fun c => c.isSome)).filter (isOutlierCell lb ub)
      = col.filter (isOutlierCell lb ub) := by
  induction col with
  | nil => rfl
  | cons c t ih =>
    cases c with
    | none =>
      simp only [List.filter_cons, Option.isSome_none, Bool.false_eq_true, if_false]
      have hno : isOutlierCell lb ub none = false := rfl
      rw [hno]
      simp only [Bool.false_eq_true, if_false]
      exact ih
    | some v =>
      simp only [List.filter_cons, Option.isSome_some, eq_self_iff_true, if_true]
      split
      · exact congrArg (List.cons (some v)) ih
      · exact ih

/-- C10: `Remove Outliers` also removes every row whose cell in the
target column is missing — a NaN satisfies neither `>= lb` nor `<= ub`
(line 71) — although the detector counts no missing cell as an outlier:
dropping the missing cells first leaves the outlier count unchanged. -/
theorem remove_outliers_drops_missing {β : Type} (df : List (Option ℚ × β)) :
    (∀ r ∈ removeOutliersRows df, r.1.isSome = true) ∧
      outlierCount ((df.map Prod.fst).filter (fun c => c.isSome))
        = outlierCount (df.map Prod.fst) := by
  constructor
  · intro r hr
    unfold removeOutliersRows at hr
    rcases hb : iqrBounds (df.map Prod.fst) with _ | ⟨lb, ub⟩ <;> rw [hb] at hr
    · exact absurd hr (List.not_mem_nil r)
    · obtain ⟨_, hkr⟩ := List.mem_filter.mp hr
      cases hc : r.1 with
      | none => rw [hc] at hkr; exact Bool.noConfusion hkr
      | some v => rfl
  · unfold outlierCount
    rw [iqrBounds_filter_isSome]
    rcases hb : iqrBounds (df.map Prod.fst) with _ | ⟨lb, ub⟩
    · rfl
    · simp only [filter_outlier_filter_isSome]
